import Mathlib

/-!
# Verification of the governance-linter rule engine (TypeScript front-end)

Shallow embedding of `typescript/src/utils.ts`, the five ESLint rules
(`no-ungoverned-tool-call`, `no-unlogged-action`, `no-hardcoded-trust-level`,
`require-consent-check`, `require-budget-check`) and the plugin driver in
`typescript/src/index.ts`.

The embedding models the estree AST fragment the rules inspect: identifiers,
literals, member expressions (with the `computed` flag), call expressions,
binary expressions, function-like nodes and statement blocks.  Call and
literal nodes carry an optional source location `(line, column)`, matching
the defensive `node.loc?.start` reads in `utils.ts`.  Rule evaluation is
modelled as ESLint runs it: a pre-order traversal of the program that fires
each rule's listener on every matching node, handing it the ancestor chain
(outermost first), and collecting the `context.report` calls in order.
-/

/-- A source position: `line` (1-based in estree) and `column` (0-based). -/
structure Loc where
  line : Nat
  column : Nat
deriving DecidableEq, Repr

/-- The value carried by an estree `Literal` node, as far as the rules
inspect it (`typeof value === 'number'` versus anything else). -/
inductive LitVal where
  | num (n : Int)
  | str (s : String)
deriving DecidableEq, Repr

/-- The three estree node types `findEnclosingFunction` recognises. -/
inductive FuncKind where
  | functionDeclaration
  | functionExpression
  | arrowFunctionExpression
deriving DecidableEq, Repr

/-- The estree fragment the rules inspect.  `member` keeps the `computed`
flag of the estree node (`a.b` versus `a[b]`); `call` and `lit` carry the
optional location used by `anyCallPrecedesNode` and by reporting; `block`
stands for any statement-level node with a list of children (Program,
BlockStatement, branches, ...). -/
inductive Node where
  | ident (name : String)
  | lit (value : LitVal) (loc : Option Loc)
  | member (obj : Node) (prop : Node) (computed : Bool)
  | call (callee : Node) (args : List Node) (loc : Option Loc)
  | binary (op : String) (left : Node) (right : Node)
  | func (kind : FuncKind) (body : Node)
  | block (stmts : List Node)

/-- `GOVERNANCE_OBJECT_NAMES` of utils.ts. -/
def GOVERNANCE_OBJECT_NAMES : List String :=
  ["engine", "governance", "trust", "policy", "aumos"]

/-- `GOVERNANCE_METHOD_NAMES` of utils.ts. -/
def GOVERNANCE_METHOD_NAMES : List String :=
  ["check", "verify", "validate", "authorize", "permit"]

/-- `TOOL_OBJECT_NAMES` of utils.ts. -/
def TOOL_OBJECT_NAMES : List String := ["tool", "tools", "agent", "executor"]

/-- `TOOL_METHOD_NAMES` of utils.ts. -/
def TOOL_METHOD_NAMES : List String :=
  ["run", "execute", "invoke", "call", "dispatch"]

/-- `AUDIT_OBJECT_NAMES` of utils.ts. -/
def AUDIT_OBJECT_NAMES : List String := ["audit", "logger", "log", "auditLog"]

/-- `AUDIT_METHOD_NAMES` of utils.ts. -/
def AUDIT_METHOD_NAMES : List String :=
  ["log", "write", "record", "emit", "info", "debug", "warn", "error"]

/-- `AUDIT_FUNCTION_NAMES` of utils.ts. -/
def AUDIT_FUNCTION_NAMES : List String :=
  ["auditLog", "auditAction", "logAction", "recordAction"]

/-- `CONSENT_OBJECT_NAMES` of utils.ts. -/
def CONSENT_OBJECT_NAMES : List String :=
  ["consent", "privacy", "gdpr", "permissions"]

/-- `CONSENT_METHOD_NAMES` of utils.ts. -/
def CONSENT_METHOD_NAMES : List String :=
  ["check", "verify", "hasConsent", "isAllowed", "grant"]

/-- `BUDGET_OBJECT_NAMES` of utils.ts. -/
def BUDGET_OBJECT_NAMES : List String :=
  ["budget", "cost", "quota", "spend", "billing", "tokens"]

/-- `BUDGET_METHOD_NAMES` of utils.ts. -/
def BUDGET_METHOD_NAMES : List String :=
  ["check", "verify", "canSpend", "hasQuota", "authorize", "reserve"]

/-- `DATA_ACCESS_OBJECT_NAMES` of utils.ts. -/
def DATA_ACCESS_OBJECT_NAMES : List String :=
  ["db", "database", "repo", "repository", "store", "user", "users",
   "profile", "customer"]

/-- `DATA_ACCESS_METHOD_NAMES` of utils.ts. -/
def DATA_ACCESS_METHOD_NAMES : List String :=
  ["query", "find", "findOne", "findAll", "findById", "fetch", "get",
   "read", "select", "load"]

/-- `SPEND_OBJECT_NAMES` of utils.ts. -/
def SPEND_OBJECT_NAMES : List String :=
  ["api", "openai", "anthropic", "llm", "model", "tokens", "completion",
   "embedding"]

/-- `SPEND_METHOD_NAMES` of utils.ts. -/
def SPEND_METHOD_NAMES : List String :=
  ["call", "chat", "complete", "generate", "embed", "use", "consume",
   "request", "createCompletion", "createChatCompletion"]

/-- `getMemberExpressionParts` of utils.ts: the `(object, property)` names
when both the object and the property of a member expression are plain
identifiers; `none` otherwise.  As in the source, the `computed` flag is not
consulted. -/
def getMemberExpressionParts : Node → Option (String × String)
  | .member (.ident o) (.ident p) _ => some (o, p)
  | _ => none

/-- `getCalleeIdentifier` of utils.ts: the callee's name when the callee of
a call is a bare identifier. -/
def getCalleeIdentifier : Node → Option String
  | .call (.ident n) _ _ => some n
  | _ => none

/-- `isGovernanceCheck` of utils.ts.  (A non-member callee yields
`getMemberExpressionParts = none`, covering the source's early
`callee.type !== 'MemberExpression'` return.) -/
def isGovernanceCheck : Node → Bool
  | .call callee _ _ =>
    match getMemberExpressionParts callee with
    | some (o, p) =>
      GOVERNANCE_OBJECT_NAMES.contains o && GOVERNANCE_METHOD_NAMES.contains p
    | none => false
  | _ => false

/-- `isToolCall` of utils.ts. -/
def isToolCall : Node → Bool
  | .call callee _ _ =>
    match getMemberExpressionParts callee with
    | some (o, p) => TOOL_OBJECT_NAMES.contains o && TOOL_METHOD_NAMES.contains p
    | none => false
  | _ => false

/-- `isAuditLog` of utils.ts: a bare call to one of `AUDIT_FUNCTION_NAMES`,
or a member call matching the audit object/method sets. -/
def isAuditLog : Node → Bool
  | .call callee args loc =>
    (match getCalleeIdentifier (.call callee args loc) with
     | some f => AUDIT_FUNCTION_NAMES.contains f
     | none => false)
    ||
    (match getMemberExpressionParts callee with
     | some (o, p) => AUDIT_OBJECT_NAMES.contains o && AUDIT_METHOD_NAMES.contains p
     | none => false)
  | _ => false

/-- `isConsentCheck` of utils.ts. -/
def isConsentCheck : Node → Bool
  | .call callee _ _ =>
    match getMemberExpressionParts callee with
    | some (o, p) =>
      CONSENT_OBJECT_NAMES.contains o && CONSENT_METHOD_NAMES.contains p
    | none => false
  | _ => false

/-- `isBudgetCheck` of utils.ts. -/
def isBudgetCheck : Node → Bool
  | .call callee _ _ =>
    match getMemberExpressionParts callee with
    | some (o, p) =>
      BUDGET_OBJECT_NAMES.contains o && BUDGET_METHOD_NAMES.contains p
    | none => false
  | _ => false

/-- `isDataAccessCall` of utils.ts. -/
def isDataAccessCall : Node → Bool
  | .call callee _ _ =>
    match getMemberExpressionParts callee with
    | some (o, p) =>
      DATA_ACCESS_OBJECT_NAMES.contains o && DATA_ACCESS_METHOD_NAMES.contains p
    | none => false
  | _ => false

/-- `isSpendCall` of utils.ts. -/
def isSpendCall : Node → Bool
  | .call callee _ _ =>
    match getMemberExpressionParts callee with
    | some (o, p) => SPEND_OBJECT_NAMES.contains o && SPEND_METHOD_NAMES.contains p
    | none => false
  | _ => false

/-- `findEnclosingFunction` of utils.ts walks `ancestors` from the last
entry (the nearest ancestor) to the first and returns the first
function-like node.  (The source's `node` parameter is never read in its
body.)  Walking a list backwards returning the first match is finding the
first match of the reversed list. -/
def isFunctionNode : Node → Bool
  | .func _ _ => true
  | _ => false

/-- See `isFunctionNode`: the loop of `findEnclosingFunction` in utils.ts. -/
def findEnclosingFunction (ancestors : List Node) : Option Node :=
  ancestors.reverse.find? isFunctionNode

mutual
/-- `collectCallExpressions` of utils.ts: the walk pushes the current node
when it is a CallExpression, then recurses into every child node, in the
order the node's fields hold them. -/
def collectCallExpressions : Node → List Node
  | .ident _ => []
  | .lit _ _ => []
  | .member o p _ => collectCallExpressions o ++ collectCallExpressions p
  | .call callee args loc =>
    .call callee args loc :: (collectCallExpressions callee ++ collectCallList args)
  | .binary _ l r => collectCallExpressions l ++ collectCallExpressions r
  | .func _ b => collectCallExpressions b
  | .block ss => collectCallList ss

/-- The walk of `collectCallExpressions` over an array-valued child. -/
def collectCallList : List Node → List Node
  | [] => []
  | n :: t => collectCallExpressions n ++ collectCallList t
end

/-- The location the rules read off a node (`node.loc?.start`): only call
and literal nodes carry one in this model (they are the only reported /
position-compared nodes). -/
def nodeLoc : Node → Option Loc
  | .call _ _ l => l
  | .lit _ l => l
  | _ => none

/-- JavaScript `a < b` after `?? Infinity`: a missing operand stands for
`+Infinity`, and `Infinity < x` is false for every `x` while
`x < Infinity` is true for finite `x`. -/
def infLt : Option Nat → Option Nat → Bool
  | some x, some y => decide (x < y)
  | some _, none => true
  | none, _ => false

/-- JavaScript `a === b` after `?? Infinity`: `Infinity === Infinity` is
true. -/
def infEq : Option Nat → Option Nat → Bool
  | some x, some y => x == y
  | none, none => true
  | _, _ => false

/-- `anyCallPrecedesNode` of utils.ts: some call satisfying `pred` whose
`(line, column)` sorts strictly before the target's, missing locations
standing for `+Infinity`. -/
def anyCallPrecedesNode (calls : List Node) (targetNode : Node)
    (pred : Node → Bool) : Bool :=
  let targetLine := (nodeLoc targetNode).map Loc.line
  let targetCol := (nodeLoc targetNode).map Loc.column
  calls.any fun c =>
    pred c &&
      (let callLine := (nodeLoc c).map Loc.line
       let callCol := (nodeLoc c).map Loc.column
       infLt callLine targetLine || (infEq callLine targetLine && infLt callCol targetCol))

/-- `TRUST_IDENTIFIER_PATTERN` of no-hardcoded-trust-level.ts: the regex
`trust|level|tier|clearance` (case-insensitive) — its `.test(name)` is a
case-insensitive substring search for one of the four words. -/
def TRUST_IDENTIFIER_WORDS : List String := ["trust", "level", "tier", "clearance"]

/-- `p` is a prefix of `l` (character lists). -/
def charListHasPre : List Char → List Char → Bool
  | [], _ => true
  | _ :: _, [] => false
  | a :: as, b :: bs => a == b && charListHasPre as bs

/-- `p` occurs as a contiguous run inside `l` (character lists). -/
def charListHasSub (p : List Char) : List Char → Bool
  | [] => charListHasPre p []
  | c :: t => charListHasPre p (c :: t) || charListHasSub p t

/-- `TRUST_IDENTIFIER_PATTERN.test(name)`: case-insensitive substring
search for one of the four trust words. -/
def trustRegexTest (name : String) : Bool :=
  let lowered := name.toList.map Char.toLower
  TRUST_IDENTIFIER_WORDS.any fun p => charListHasSub p.toList lowered

/-- `nodeContainsTrustIdentifier` of no-hardcoded-trust-level.ts: an
identifier matching the trust regex, or a member expression either of whose
sides contains one; any other node (a literal in particular) does not. -/
def nodeContainsTrustIdentifier : Node → Bool
  | .ident name => trustRegexTest name
  | .member o p _ => nodeContainsTrustIdentifier o || nodeContainsTrustIdentifier p
  | _ => false

/-- `COMPARISON_OPERATORS` of no-hardcoded-trust-level.ts. -/
def COMPARISON_OPERATORS : List String :=
  ["===", "!==", "==", "!=", "<", "<=", ">", ">="]

/-- `isSmallNumericLiteral` of no-hardcoded-trust-level.ts: a `Literal`
whose value is a number with `value >= 0 && value <= 5` — the bounds 0 and
5 are written into this helper, independently of any configuration. -/
def isSmallNumericLiteral : Node → Bool
  | .lit (.num v) _ => decide (0 ≤ v) && decide (v ≤ 5)
  | _ => false

/-- A JavaScript value as far as the rule's option handling distinguishes
values: a number, a string, `undefined` (also: the option is absent) or
`null`. -/
inductive JSVal where
  | num (n : Int)
  | str (s : String)
  | undef
  | nul
deriving DecidableEq, Repr

/-- JavaScript `v ?? d`: `d` exactly when `v` is `undefined` or `null`. -/
def nullishOr (v d : JSVal) : JSVal :=
  match v with
  | .undef => d
  | .nul => d
  | _ => v

/-- Whitespace as JavaScript string trimming removes it (the common
subset). -/
def jsWhitespace (c : Char) : Bool :=
  c == ' ' || c == '\t' || c == '\n' || c == '\r'

/-- Both-ends whitespace trimming on a character list. -/
def trimCharList (l : List Char) : List Char :=
  ((l.dropWhile jsWhitespace).reverse.dropWhile jsWhitespace).reverse

/-- Decimal digits to a number, `none` on a non-digit. -/
def decDigitsAux : List Char → Nat → Option Nat
  | [], acc => some acc
  | c :: t, acc =>
    if c.isDigit then decDigitsAux t (acc * 10 + (c.toNat - 48)) else none

/-- A non-empty all-digit run to its value. -/
def decDigitsToNat : List Char → Option Nat
  | [] => none
  | l => decDigitsAux l 0

/-- JavaScript `ToNumber` on a string, for the strings this model covers:
a trimmed-empty string is 0, an optional-sign decimal integer is its value,
anything else (e.g. `"high"`) is `NaN`, rendered here as `none`.  (Decimal
fractions and hex forms are outside the model; no claim exercises them.) -/
def jsStringToNumber (s : String) : Option Int :=
  match trimCharList s.toList with
  | [] => some 0
  | '+' :: rest => (decDigitsToNat rest).map Int.ofNat
  | '-' :: rest => (decDigitsToNat rest).map fun n => -(Int.ofNat n)
  | l => (decDigitsToNat l).map Int.ofNat

/-- JavaScript `a <= b` for a number `a` and an arbitrary value `b`:
numbers compare numerically, a string is converted with `ToNumber` (a
`NaN` result makes the comparison false), `null` converts to 0, and a
comparison against `undefined` is always false. -/
def jsLeNumVal (a : Int) (b : JSVal) : Bool :=
  match b with
  | .num m => decide (a ≤ m)
  | .str s =>
    match jsStringToNumber s with
    | some m => decide (a ≤ m)
    | none => false
  | .nul => decide (a ≤ 0)
  | .undef => false

/-- The argument of a `context.report` call: the rule id, the message id,
the node the violation is reported at, and the message data pairs. -/
structure Violation where
  ruleId : String
  messageId : String
  node : Node
  data : List (String × String)

/-- A rendering of a callee node, standing in for
`context.getSourceCode().getText(node.callee)` in messages. -/
def calleeText : Node → String
  | .ident n => n
  | .member o p computed =>
    calleeText o ++ (if computed then "[" ++ calleeText p ++ "]" else "." ++ calleeText p)
  | .lit (.num n) _ => toString n
  | .lit (.str s) _ => s
  | _ => ""

/-- The callee rendering of a call node (empty for non-calls). -/
def calleeTextOfCall : Node → String
  | .call c _ _ => calleeText c
  | _ => ""

/-- The numeric value of a numeric literal node. -/
def litNumValue : Node → Option Int
  | .lit (.num v) _ => some v
  | _ => none

/-- The report the trust rule emits: at the literal node, with the literal
value in the message data (`data: \x7b value: String(numericValue) \x7d`). -/
def mkTrustViolation (litNode : Node) (value : Int) : Violation :=
  ⟨"no-hardcoded-trust-level", "hardcodedTrustLevel", litNode, [("value", toString value)]⟩

/-- The `BinaryExpression` listener of no-hardcoded-trust-level.ts, with
the already-resolved `maxMagicValue`.  Pattern A (trust operand left,
literal right) returns whether or not it reported, so pattern B is only
tried when A's shape test failed, exactly as in the source. -/
def trustRuleOnNode (maxMagicValue : JSVal) (n : Node) : List Violation :=
  match n with
  | .binary op l r =>
    if COMPARISON_OPERATORS.contains op then
      if nodeContainsTrustIdentifier l && isSmallNumericLiteral r then
        match litNumValue r with
        | some v => if jsLeNumVal v maxMagicValue then [mkTrustViolation r v] else []
        | none => []
      else if isSmallNumericLiteral l && nodeContainsTrustIdentifier r then
        match litNumValue l with
        | some v => if jsLeNumVal v maxMagicValue then [mkTrustViolation l v] else []
        | none => []
      else []
    else []
  | _ => []

mutual
/-- ESLint's source traversal: every node of the tree in pre-order, each
paired with its ancestor chain as `context.getAncestors()` hands it to a
listener (outermost ancestor first, immediate parent last). -/
def nodesWithAncestors (anc : List Node) : Node → List (Node × List Node)
  | .ident s => [(.ident s, anc)]
  | .lit v l => [(.lit v l, anc)]
  | .member o p c =>
    (.member o p c, anc) ::
      (nodesWithAncestors (anc ++ [.member o p c]) o ++
       nodesWithAncestors (anc ++ [.member o p c]) p)
  | .call callee args loc =>
    (.call callee args loc, anc) ::
      (nodesWithAncestors (anc ++ [.call callee args loc]) callee ++
       nodesListWithAncestors (anc ++ [.call callee args loc]) args)
  | .binary op l r =>
    (.binary op l r, anc) ::
      (nodesWithAncestors (anc ++ [.binary op l r]) l ++
       nodesWithAncestors (anc ++ [.binary op l r]) r)
  | .func k b => (.func k b, anc) :: nodesWithAncestors (anc ++ [.func k b]) b
  | .block ss => (.block ss, anc) :: nodesListWithAncestors (anc ++ [.block ss]) ss

/-- The traversal over an array-valued child. -/
def nodesListWithAncestors (anc : List Node) : List Node → List (Node × List Node)
  | [] => []
  | n :: t => nodesWithAncestors anc n ++ nodesListWithAncestors anc t
end

/-- The options object of no-ungoverned-tool-call.ts, as its `meta.schema`
declares it. -/
structure ToolCallOptions where
  additionalToolPatterns : List String
  additionalCheckPatterns : List String

/-- No configuration supplied. -/
def defaultToolCallOptions : ToolCallOptions := ⟨[], []⟩

/-- The report of no-ungoverned-tool-call.ts. -/
def mkToolViolation (n : Node) : Violation :=
  ⟨"no-ungoverned-tool-call", "missingGovernanceCheck", n, [("callExpr", calleeTextOfCall n)]⟩

/-- The `CallExpression` listener of no-ungoverned-tool-call.ts at one
visited node.  `opts` is the rule's configuration object; as in the source,
`create` never reads `context.options`, so `opts` is never consulted. -/
def toolCallStep (opts : ToolCallOptions) (p : Node × List Node) : List Violation :=
  if isToolCall p.1 then
    match findEnclosingFunction p.2 with
    | none => [mkToolViolation p.1]
    | some f =>
      if anyCallPrecedesNode (collectCallExpressions f) p.1 isGovernanceCheck then []
      else [mkToolViolation p.1]
  else []

/-- The rule no-ungoverned-tool-call over a whole file. -/
def runNoUngovernedToolCall (opts : ToolCallOptions) (root : Node) : List Violation :=
  (nodesWithAncestors [] root).flatMap (toolCallStep opts)

/-- The report of no-unlogged-action.ts. -/
def mkUnloggedViolation (n : Node) : Violation :=
  ⟨"no-unlogged-action", "missingAuditLog", n, [("callExpr", calleeTextOfCall n)]⟩

/-- The `CallExpression` listener of no-unlogged-action.ts at one visited
node: a governance check violates unless some audit-log call occurs
anywhere in the enclosing function (no order condition). -/
def unloggedActionStep (p : Node × List Node) : List Violation :=
  if isGovernanceCheck p.1 then
    match findEnclosingFunction p.2 with
    | none => [mkUnloggedViolation p.1]
    | some f =>
      if (collectCallExpressions f).any isAuditLog then []
      else [mkUnloggedViolation p.1]
  else []

/-- The rule no-unlogged-action over a whole file. -/
def runNoUnloggedAction (root : Node) : List Violation :=
  (nodesWithAncestors [] root).flatMap unloggedActionStep

/-- The rule no-hardcoded-trust-level over a whole file.  `optValue` is the
runtime value of `options[0].maxMagicValue` (`JSVal.undef` when the options
object or the property is absent); `create` resolves it once with
`options.maxMagicValue ?? 5`. -/
def runNoHardcodedTrustLevel (optValue : JSVal) (root : Node) : List Violation :=
  let maxMagicValue := nullishOr optValue (.num 5)
  (nodesWithAncestors [] root).flatMap fun p => trustRuleOnNode maxMagicValue p.1

/-- The report of require-consent-check (src/unnamed/part_001). -/
def mkConsentViolation (n : Node) : Violation :=
  ⟨"require-consent-check", "missingConsentCheck", n, [("callExpr", calleeTextOfCall n)]⟩

/-- The `CallExpression` listener of require-consent-check at one visited
node. -/
def consentCheckStep (p : Node × List Node) : List Violation :=
  if isDataAccessCall p.1 then
    match findEnclosingFunction p.2 with
    | none => [mkConsentViolation p.1]
    | some f =>
      if anyCallPrecedesNode (collectCallExpressions f) p.1 isConsentCheck then []
      else [mkConsentViolation p.1]
  else []

/-- The rule require-consent-check over a whole file. -/
def runRequireConsentCheck (root : Node) : List Violation :=
  (nodesWithAncestors [] root).flatMap consentCheckStep

/-- The report of require-budget-check (src/unnamed/part_000). -/
def mkBudgetViolation (n : Node) : Violation :=
  ⟨"require-budget-check", "missingBudgetCheck", n, [("callExpr", calleeTextOfCall n)]⟩

/-- The `CallExpression` listener of require-budget-check at one visited
node. -/
def budgetCheckStep (p : Node × List Node) : List Violation :=
  if isSpendCall p.1 then
    match findEnclosingFunction p.2 with
    | none => [mkBudgetViolation p.1]
    | some f =>
      if anyCallPrecedesNode (collectCallExpressions f) p.1 isBudgetCheck then []
      else [mkBudgetViolation p.1]
  else []

/-- The rule require-budget-check over a whole file. -/
def runRequireBudgetCheck (root : Node) : List Violation :=
  (nodesWithAncestors [] root).flatMap budgetCheckStep

/-- The per-run configuration reaching the rules (index.ts registers the
five rules; only two of them declare options). -/
structure LintConfig where
  maxMagicValue : JSVal
  toolOptions : ToolCallOptions

/-- One engine run: the five registered rules of index.ts evaluated over
one parsed file, their reports concatenated in registration order. -/
def runAllRules (cfg : LintConfig) (root : Node) : List Violation :=
  runNoUngovernedToolCall cfg.toolOptions root
    ++ runNoUnloggedAction root
    ++ runNoHardcodedTrustLevel cfg.maxMagicValue root
    ++ runRequireConsentCheck root
    ++ runRequireBudgetCheck root

/-- Spec-side ordering (§4.4 of the spec, for C3): position `a` sorts
strictly before position `b` under (line ascending, then column
ascending), a missing position standing for `+infinity`. -/
def posStrictlyBefore (a b : Option Loc) : Prop :=
  match a, b with
  | some x, some y => x.line < y.line ∨ (x.line = y.line ∧ x.column < y.column)
  | some _, none => True
  | none, _ => False

instance (a b : Option Loc) : Decidable (posStrictlyBefore a b) :=
  match a, b with
  | some x, some y =>
    inferInstanceAs (Decidable (x.line < y.line ∨ (x.line = y.line ∧ x.column < y.column)))
  | some _, none => inferInstanceAs (Decidable True)
  | none, some _ => inferInstanceAs (Decidable False)
  | none, none => inferInstanceAs (Decidable False)

/-- Spec-side callee-shape predicate (C4), modelled from the spec's words:
"a simple `identifier` or `identifier.identifier` shape", of which a
computed member access (`a[b]`) and a chained call are given as
non-examples — so a member access only qualifies when it is not computed. -/
def specSimpleCalleeShape : Node → Bool
  | .ident _ => true
  | .member (.ident _) (.ident _) false => true
  | _ => false

/-- A bare identifier node. -/
def isBareIdentifier : Node → Bool
  | .ident _ => true
  | _ => false

/-- The children of a node, as the walk of `collectCallExpressions`
recurses into them. -/
def childNodes : Node → List Node
  | .ident _ => []
  | .lit _ _ => []
  | .member o p _ => [o, p]
  | .call callee args _ => callee :: args
  | .binary _ l r => [l, r]
  | .func _ b => [b]
  | .block ss => ss

/-- `InTree m r`: node `m` occurs in the subtree rooted at `r` (reflexive,
through any chain of children — in particular through nested function
nodes). -/
inductive InTree : Node → Node → Prop where
  | refl (n : Node) : InTree n n
  | step {m c r : Node} : c ∈ childNodes r → InTree m c → InTree m r

/-! ## Concrete programs used as test inputs -/

/-- The file `level >= 7` (one top-level comparison). -/
def levelGe7File : Node :=
  .block [.binary ">=" (.ident "level") (.lit (.num 7) (some ⟨1, 13⟩))]

/-- The file `level >= 3`. -/
def levelGe3File : Node :=
  .block [.binary ">=" (.ident "level") (.lit (.num 3) (some ⟨1, 13⟩))]

/-- The file `function f() { mytool.run(x) }`: a call through an object
name that is not in the default tool set. -/
def mytoolFile : Node :=
  .block [.func .functionDeclaration (.block
    [.call (.member (.ident "mytool") (.ident "run") false) [.ident "x"] (some ⟨1, 17⟩)])]

/-- The top-level computed member call `tool[run]()`. -/
def computedToolCall : Node :=
  .call (.member (.ident "tool") (.ident "run") true) [] (some ⟨1, 0⟩)

/-- A file whose only statement is `tool[run]()`. -/
def computedToolFile : Node := .block [computedToolCall]

/-- Top-level `engine.check()` (line 1). -/
def topGovCall : Node :=
  .call (.member (.ident "engine") (.ident "check") false) [] (some ⟨1, 0⟩)

/-- Top-level `consent.check()` (line 2). -/
def topConsentCall : Node :=
  .call (.member (.ident "consent") (.ident "check") false) [] (some ⟨2, 0⟩)

/-- Top-level `budget.check()` (line 3). -/
def topBudgetCall : Node :=
  .call (.member (.ident "budget") (.ident "check") false) [] (some ⟨3, 0⟩)

/-- Top-level `audit.log()` (line 4). -/
def topAuditCall : Node :=
  .call (.member (.ident "audit") (.ident "log") false) [] (some ⟨4, 0⟩)

/-- Top-level `tool.run()` (line 5). -/
def topToolCall : Node :=
  .call (.member (.ident "tool") (.ident "run") false) [] (some ⟨5, 0⟩)

/-- Top-level `governance.verify()` (line 6). -/
def topGovVerifyCall : Node :=
  .call (.member (.ident "governance") (.ident "verify") false) [] (some ⟨6, 0⟩)

/-- Top-level `db.query()` (line 7). -/
def topDbCall : Node :=
  .call (.member (.ident "db") (.ident "query") false) [] (some ⟨7, 0⟩)

/-- Top-level `openai.chat()` (line 8). -/
def topSpendCall : Node :=
  .call (.member (.ident "openai") (.ident "chat") false) [] (some ⟨8, 0⟩)

/-- A file whose statements are all at top level: every prerequisite kind
occurs (lines 1-4) before every trigger kind (lines 5-8), yet no trigger
has an enclosing function. -/
def topLevelFile : Node :=
  .block [topGovCall, topConsentCall, topBudgetCall, topAuditCall,
          topToolCall, topGovVerifyCall, topDbCall, topSpendCall]

/-- `db.query()` on line 2 of `lateConsentFile`. -/
def dbQueryCall : Node :=
  .call (.member (.ident "db") (.ident "query") false) [] (some ⟨2, 2⟩)

/-- `consent.check()` on line 3 — after the data access. -/
def lateConsentCall : Node :=
  .call (.member (.ident "consent") (.ident "check") false) [] (some ⟨3, 2⟩)

/-- `openai.chat()` on line 2 of `lateBudgetFile`. -/
def spendEarlyCall : Node :=
  .call (.member (.ident "openai") (.ident "chat") false) [] (some ⟨2, 2⟩)

/-- `budget.check()` on line 3 — after the spend. -/
def lateBudgetCall : Node :=
  .call (.member (.ident "budget") (.ident "check") false) [] (some ⟨3, 2⟩)

/-- The body of a function whose consent check comes only after its data
access. -/
def lateConsentBody : Node := .block [dbQueryCall, lateConsentCall]

/-- `function g() { db.query(); consent.check() }`. -/
def lateConsentFn : Node := .func .functionDeclaration lateConsentBody

/-- The file holding `lateConsentFn`. -/
def lateConsentFile : Node := .block [lateConsentFn]

/-- The body of a function whose budget check comes only after its spend
call. -/
def lateBudgetBody : Node := .block [spendEarlyCall, lateBudgetCall]

/-- `function h() { openai.chat(); budget.check() }`. -/
def lateBudgetFn : Node := .func .functionDeclaration lateBudgetBody

/-- The file holding `lateBudgetFn`. -/
def lateBudgetFile : Node := .block [lateBudgetFn]

/-- `engine.check()` on line 2 of `loggedFile` (inside a function that
also logs). -/
def loggedGovCall : Node :=
  .call (.member (.ident "engine") (.ident "check") false) [] (some ⟨2, 2⟩)

/-- `audit.log()` on line 3, after the check. -/
def laterAuditCall : Node :=
  .call (.member (.ident "audit") (.ident "log") false) [] (some ⟨3, 2⟩)

/-- Body of a function with a governance check then an audit log. -/
def loggedBody : Node := .block [loggedGovCall, laterAuditCall]

/-- `function a() { engine.check(); audit.log() }`. -/
def loggedFn : Node := .func .functionDeclaration loggedBody

/-- `engine.check()` on line 2 of a function with no log call at all. -/
def unloggedGovCall : Node :=
  .call (.member (.ident "engine") (.ident "check") false) [] (some ⟨2, 2⟩)

/-- Body of a function with a governance check and no audit call. -/
def unloggedBody : Node := .block [unloggedGovCall]

/-- `function b() { engine.check() }`. -/
def unloggedFn : Node := .func .functionDeclaration unloggedBody

/-- `engine.check()` on line 2, inside a nested arrow function. -/
def nestedGovCall : Node :=
  .call (.member (.ident "engine") (.ident "check") false) [] (some ⟨2, 4⟩)

/-- The arrow function's body holding the nested governance check. -/
def nestedArrowBody : Node := .block [nestedGovCall]

/-- The nested arrow function (a closure inside the enclosing function). -/
def nestedArrow : Node := .func .arrowFunctionExpression nestedArrowBody

/-- `tool.run()` on line 3, after the closure. -/
def nestedToolCall : Node :=
  .call (.member (.ident "tool") (.ident "run") false) [] (some ⟨3, 2⟩)

/-- The enclosing function's body: the closure, then the tool call. -/
def nestedOuterBody : Node := .block [nestedArrow, nestedToolCall]

/-- `function outer() { () => { engine.check() }; tool.run() }`. -/
def nestedOuterFn : Node := .func .functionDeclaration nestedOuterBody

/-- The file holding `nestedOuterFn`. -/
def nestedFile : Node := .block [nestedOuterFn]

/-! ## Helper lemmas -/

/-- The boolean position test inside `anyCallPrecedesNode` agrees with the
spec-side strict ordering `posStrictlyBefore`. -/
theorem precBool_iff (a b : Option Loc) :
    (infLt (a.map Loc.line) (b.map Loc.line)
      || (infEq (a.map Loc.line) (b.map Loc.line)
            && infLt (a.map Loc.column) (b.map Loc.column))) = true
      ↔ posStrictlyBefore a b := by
  cases a <;> cases b <;> simp [infLt, infEq, posStrictlyBefore]

/-- `anyCallPrecedesNode` holds exactly when some listed call satisfies the
predicate and its position sorts strictly before the target's. -/
theorem anyCallPrecedesNode_iff (calls : List Node) (target : Node)
    (pred : Node → Bool) :
    anyCallPrecedesNode calls target pred = true ↔
      ∃ c ∈ calls, pred c = true ∧
        posStrictlyBefore (nodeLoc c) (nodeLoc target) := by
  simp only [anyCallPrecedesNode, List.any_eq_true, Bool.and_eq_true]
  constructor
  · rintro ⟨c, hc, hp, hb⟩
    exact ⟨c, hc, hp, (precBool_iff _ _).1 hb⟩
  · rintro ⟨c, hc, hp, hb⟩
    exact ⟨c, hc, hp, (precBool_iff _ _).2 hb⟩

/-- A call collected from a member of a node list is collected from the
list. -/
theorem mem_collectCallList {x c : Node} {l : List Node}
    (hc : c ∈ l) (hx : x ∈ collectCallExpressions c) : x ∈ collectCallList l := by
  induction l with
  | nil => cases hc
  | cons h t ih =>
    rcases List.mem_cons.mp hc with rfl | hc'
    · exact List.mem_append.mpr (Or.inl hx)
    · exact List.mem_append.mpr (Or.inr (ih hc'))

/-- A call collected from a child of `r` is collected from `r`: the walk of
`collectCallExpressions` recurses into every child, function nodes
included. -/
theorem mem_collect_of_child {r c x : Node}
    (hc : c ∈ childNodes r) (hx : x ∈ collectCallExpressions c) :
    x ∈ collectCallExpressions r := by
  cases r with
  | ident s => cases hc
  | lit v l => cases hc
  | member o p cb =>
    rcases List.mem_cons.mp hc with rfl | hc'
    · exact List.mem_append.mpr (Or.inl hx)
    · rcases List.mem_cons.mp hc' with rfl | hc''
      · exact List.mem_append.mpr (Or.inr hx)
      · cases hc''
  | call callee args loc =>
    rcases List.mem_cons.mp hc with rfl | hc'
    · exact List.mem_cons_of_mem _ (List.mem_append.mpr (Or.inl hx))
    · exact List.mem_cons_of_mem _ (List.mem_append.mpr (Or.inr (mem_collectCallList hc' hx)))
  | binary op l r =>
    rcases List.mem_cons.mp hc with rfl | hc'
    · exact List.mem_append.mpr (Or.inl hx)
    · rcases List.mem_cons.mp hc' with rfl | hc''
      · exact List.mem_append.mpr (Or.inr hx)
      · cases hc''
  | func k b =>
    rcases List.mem_cons.mp hc with rfl | hc'
    · exact hx
    · cases hc'
  | block ss => exact mem_collectCallList hc hx

/-- A call collected from any node of the subtree rooted at `r` is
collected from `r`. -/
theorem mem_collect_of_inTree {m r x : Node}
    (h : InTree m r) (hx : x ∈ collectCallExpressions m) :
    x ∈ collectCallExpressions r := by
  induction h with
  | refl => exact hx
  | step hc _ ih => exact mem_collect_of_child hc ih

/-- When the resolved bound makes every numeric comparison false, the trust
rule reports nothing at any node. -/
theorem trustRuleOnNode_eq_nil (m : JSVal)
    (h : ∀ v : Int, jsLeNumVal v m = false) (n : Node) :
    trustRuleOnNode m n = [] := by
  cases n with
  | binary op l r =>
    simp only [trustRuleOnNode]
    split
    · split
      · cases hv : litNumValue r with
        | some v => simp [hv, h v]
        | none => simp [hv]
      · split
        · cases hv : litNumValue l with
          | some v => simp [hv, h v]
          | none => simp [hv]
        · rfl
    · rfl
  | ident _ => rfl
  | lit _ _ => rfl
  | member _ _ _ => rfl
  | call _ _ _ => rfl
  | func _ _ => rfl
  | block _ => rfl

/-! ## Claim theorems -/

/-- C1.  In no-hardcoded-trust-level, `isSmallNumericLiteral` hard-codes the
bounds `0 <= value <= 5` before the configurable `maxMagicValue` is ever
consulted, so the flagged range is NOT `[0, maxMagicValue]` when the bound
is raised: `level >= 7` produces no violation under the default
configuration (as documented) but ALSO produces no violation with
`maxMagicValue` configured to 10, although the rule's own schema text and
the repository's CI guide say a literal 7 is then flagged.  A literal 3 is
still flagged under the same raised bound, showing the comparison against
`maxMagicValue` only ever narrows the hard-coded range. -/
theorem maxMagicValue_raise_ineffective :
    runNoHardcodedTrustLevel (JSVal.num 10) levelGe7File = [] ∧
    runNoHardcodedTrustLevel JSVal.undef levelGe7File = [] ∧
    runNoHardcodedTrustLevel (JSVal.num 10) levelGe3File =
      [mkTrustViolation (.lit (.num 3) (some ⟨1, 13⟩)) 3] :=
  ⟨rfl, rfl, rfl⟩

/-- C2.  `create` of no-ungoverned-tool-call never reads `context.options`:
the run is one and the same function of the file for every configuration,
and in particular a call through an object named by `additionalToolPatterns`
(here `mytool.run()` with `additionalToolPatterns = ["mytool"]`) is not
treated as a tool call — no violation is produced even though the call has
no preceding governance check, contradicting the rule's own schema
description and the CI guide. -/
theorem toolCall_options_ignored :
    (∀ (o₁ o₂ : ToolCallOptions) (root : Node),
        runNoUngovernedToolCall o₁ root = runNoUngovernedToolCall o₂ root) ∧
    runNoUngovernedToolCall ⟨["mytool"], []⟩ mytoolFile = [] :=
  ⟨fun _ _ _ => rfl, rfl⟩

/-- C4 counterexample.  A computed member access whose object and property
are both identifiers — `tool[run]()` — is NOT of the spec's "simple
identifier or identifier.identifier" shape, yet the code classifies it as a
tool call (getMemberExpressionParts never consults `computed`), and the
rule flags it at top level. -/
theorem computed_member_call_classified :
    specSimpleCalleeShape (.member (.ident "tool") (.ident "run") true) = false ∧
    isToolCall computedToolCall = true ∧
    runNoUngovernedToolCall defaultToolCallOptions computedToolFile =
      [mkToolViolation computedToolCall] :=
  ⟨rfl, rfl, rfl⟩

/-- C4 amended.  A call whose callee is neither a bare identifier nor a
member access with identifier object and identifier property (computed or
not) is never assigned any of the seven categories. -/
theorem unclassifiable_callee_never_categorized :
    ∀ (callee : Node) (args : List Node) (loc : Option Loc),
      isBareIdentifier callee = false →
      getMemberExpressionParts callee = none →
      isGovernanceCheck (.call callee args loc) = false ∧
      isToolCall (.call callee args loc) = false ∧
      isAuditLog (.call callee args loc) = false ∧
      isConsentCheck (.call callee args loc) = false ∧
      isBudgetCheck (.call callee args loc) = false ∧
      isDataAccessCall (.call callee args loc) = false ∧
      isSpendCall (.call callee args loc) = false := by
  intro callee args loc h1 h2
  have hci : getCalleeIdentifier (.call callee args loc) = none := by
    cases callee with
    | ident _ => simp [isBareIdentifier] at h1
    | lit _ _ => rfl
    | member _ _ _ => rfl
    | call _ _ _ => rfl
    | binary _ _ _ => rfl
    | func _ _ => rfl
    | block _ => rfl
  refine ⟨?_, ?_, ?_, ?_, ?_, ?_, ?_⟩ <;>
    simp [isGovernanceCheck, isToolCall, isAuditLog, isConsentCheck,
          isBudgetCheck, isDataAccessCall, isSpendCall, h2, hci]

/-- C4 amended, witness: the computed-with-literal-property call
`tool["run"]()` has an unclassifiable callee and falls in no category. -/
theorem unclassifiable_callee_witness :
    isGovernanceCheck (.call (.member (.ident "tool") (.lit (.str "run") none) true) [] none) = false ∧
    isToolCall (.call (.member (.ident "tool") (.lit (.str "run") none) true) [] none) = false ∧
    isAuditLog (.call (.member (.ident "tool") (.lit (.str "run") none) true) [] none) = false ∧
    isConsentCheck (.call (.member (.ident "tool") (.lit (.str "run") none) true) [] none) = false ∧
    isBudgetCheck (.call (.member (.ident "tool") (.lit (.str "run") none) true) [] none) = false ∧
    isDataAccessCall (.call (.member (.ident "tool") (.lit (.str "run") none) true) [] none) = false ∧
    isSpendCall (.call (.member (.ident "tool") (.lit (.str "run") none) true) [] none) = false :=
  unclassifiable_callee_never_categorized
    (.member (.ident "tool") (.lit (.str "run") none) true) [] none rfl rfl

/-- C8 counterexample.  `options.maxMagicValue ?? 5` only defends against
`undefined`/`null`: with the non-numeric string `"high"` as configured
value, the rule compares numbers against the string (false in JavaScript
for a `NaN` conversion) and reports nothing, while the default
configuration flags `level >= 3` — so an invalid value does not behave
like the documented default. -/
theorem invalid_maxMagicValue_differs_from_default :
    runNoHardcodedTrustLevel (JSVal.str "high") levelGe3File = [] ∧
    runNoHardcodedTrustLevel JSVal.undef levelGe3File =
      [mkTrustViolation (.lit (.num 3) (some ⟨1, 13⟩)) 3] ∧
    runNoHardcodedTrustLevel (JSVal.str "high") levelGe3File ≠
      runNoHardcodedTrustLevel JSVal.undef levelGe3File := by
  refine ⟨rfl, rfl, ?_⟩
  intro h
  have h' : ([] : List Violation) =
      [mkTrustViolation (.lit (.num 3) (some ⟨1, 13⟩)) 3] := h
  exact List.noConfusion h'

/-- C3.  The precedence evaluator returns true iff some call satisfying the
predicate has a position strictly before the target's under (line, then
column), missing positions standing for `+infinity` (so a call lacking
location data never satisfies the requirement, by `posStrictlyBefore`'s
`none`-is-never-before cases); consequently, for require-consent-check and
require-budget-check, when no matching check sits strictly before the
trigger (in particular when every matching check comes after it) the
violation is reported. -/
theorem precedence_evaluator_characterization :
    (∀ (calls : List Node) (target : Node) (pred : Node → Bool),
        anyCallPrecedesNode calls target pred = true ↔
          ∃ c ∈ calls, pred c = true ∧
            posStrictlyBefore (nodeLoc c) (nodeLoc target)) ∧
    (∀ (n : Node) (anc : List Node) (f : Node),
        isDataAccessCall n = true →
        findEnclosingFunction anc = some f →
        (∀ c ∈ collectCallExpressions f, isConsentCheck c = true →
          ¬ posStrictlyBefore (nodeLoc c) (nodeLoc n)) →
        consentCheckStep (n, anc) = [mkConsentViolation n]) ∧
    (∀ (n : Node) (anc : List Node) (f : Node),
        isSpendCall n = true →
        findEnclosingFunction anc = some f →
        (∀ c ∈ collectCallExpressions f, isBudgetCheck c = true →
          ¬ posStrictlyBefore (nodeLoc c) (nodeLoc n)) →
        budgetCheckStep (n, anc) = [mkBudgetViolation n]) := by
  refine ⟨anyCallPrecedesNode_iff, ?_, ?_⟩
  · intro n anc f h1 h2 h3
    have hfalse :
        anyCallPrecedesNode (collectCallExpressions f) n isConsentCheck = false := by
      rw [Bool.eq_false_iff]
      intro htrue
      rcases (anyCallPrecedesNode_iff _ _ _).1 htrue with ⟨c, hc, hp, hb⟩
      exact h3 c hc hp hb
    simp [consentCheckStep, h1, h2, hfalse]
  · intro n anc f h1 h2 h3
    have hfalse :
        anyCallPrecedesNode (collectCallExpressions f) n isBudgetCheck = false := by
      rw [Bool.eq_false_iff]
      intro htrue
      rcases (anyCallPrecedesNode_iff _ _ _).1 htrue with ⟨c, hc, hp, hb⟩
      exact h3 c hc hp hb
    simp [budgetCheckStep, h1, h2, hfalse]

/-- C3 witness: in `function g() { db.query(); consent.check() }` the
consent check comes only after the data access, and the data access is
still reported. -/
theorem precedence_after_check_still_violates :
    consentCheckStep (dbQueryCall, [lateConsentFile, lateConsentFn, lateConsentBody]) =
      [mkConsentViolation dbQueryCall] :=
  precedence_evaluator_characterization.2.1 dbQueryCall
    [lateConsentFile, lateConsentFn, lateConsentBody] lateConsentFn
    rfl rfl (by decide)

/-- C5.  A trigger with no enclosing function-like ancestor is reported by
each of the four requirement-based rules, whatever else the file contains. -/
theorem topLevel_trigger_always_violates :
    (∀ (opts : ToolCallOptions) (root n : Node) (anc : List Node),
        (n, anc) ∈ nodesWithAncestors [] root →
        isToolCall n = true →
        findEnclosingFunction anc = none →
        mkToolViolation n ∈ runNoUngovernedToolCall opts root) ∧
    (∀ (root n : Node) (anc : List Node),
        (n, anc) ∈ nodesWithAncestors [] root →
        isGovernanceCheck n = true →
        findEnclosingFunction anc = none →
        mkUnloggedViolation n ∈ runNoUnloggedAction root) ∧
    (∀ (root n : Node) (anc : List Node),
        (n, anc) ∈ nodesWithAncestors [] root →
        isDataAccessCall n = true →
        findEnclosingFunction anc = none →
        mkConsentViolation n ∈ runRequireConsentCheck root) ∧
    (∀ (root n : Node) (anc : List Node),
        (n, anc) ∈ nodesWithAncestors [] root →
        isSpendCall n = true →
        findEnclosingFunction anc = none →
        mkBudgetViolation n ∈ runRequireBudgetCheck root) := by
  refine ⟨?_, ?_, ?_, ?_⟩
  · intro opts root n anc hmem ht hn
    exact List.mem_flatMap.mpr ⟨(n, anc), hmem, by simp [toolCallStep, ht, hn]⟩
  · intro root n anc hmem hg hn
    exact List.mem_flatMap.mpr ⟨(n, anc), hmem, by simp [unloggedActionStep, hg, hn]⟩
  · intro root n anc hmem hd hn
    exact List.mem_flatMap.mpr ⟨(n, anc), hmem, by simp [consentCheckStep, hd, hn]⟩
  · intro root n anc hmem hs hn
    exact List.mem_flatMap.mpr ⟨(n, anc), hmem, by simp [budgetCheckStep, hs, hn]⟩

/-- C5 witness: in `topLevelFile` every prerequisite kind occurs earlier in
the file, yet each of the four top-level triggers is reported. -/
theorem topLevel_trigger_witness :
    mkToolViolation topToolCall ∈
      runNoUngovernedToolCall defaultToolCallOptions topLevelFile ∧
    mkUnloggedViolation topGovVerifyCall ∈ runNoUnloggedAction topLevelFile ∧
    mkConsentViolation topDbCall ∈ runRequireConsentCheck topLevelFile ∧
    mkBudgetViolation topSpendCall ∈ runRequireBudgetCheck topLevelFile :=
  ⟨topLevel_trigger_always_violates.1 defaultToolCallOptions topLevelFile
      topToolCall [topLevelFile]
      (by simp [nodesWithAncestors, nodesListWithAncestors, topLevelFile, topGovCall,
            topConsentCall, topBudgetCall, topAuditCall, topToolCall,
            topGovVerifyCall, topDbCall, topSpendCall]) rfl rfl,
   topLevel_trigger_always_violates.2.1 topLevelFile topGovVerifyCall [topLevelFile]
      (by simp [nodesWithAncestors, nodesListWithAncestors, topLevelFile, topGovCall,
            topConsentCall, topBudgetCall, topAuditCall, topToolCall,
            topGovVerifyCall, topDbCall, topSpendCall]) rfl rfl,
   topLevel_trigger_always_violates.2.2.1 topLevelFile topDbCall [topLevelFile]
      (by simp [nodesWithAncestors, nodesListWithAncestors, topLevelFile, topGovCall,
            topConsentCall, topBudgetCall, topAuditCall, topToolCall,
            topGovVerifyCall, topDbCall, topSpendCall]) rfl rfl,
   topLevel_trigger_always_violates.2.2.2 topLevelFile topSpendCall [topLevelFile]
      (by simp [nodesWithAncestors, nodesListWithAncestors, topLevelFile, topGovCall,
            topConsentCall, topBudgetCall, topAuditCall, topToolCall,
            topGovVerifyCall, topDbCall, topSpendCall]) rfl rfl⟩

/-- C6.  no-unlogged-action is a pure co-occurrence check: with at least
one audit-log call anywhere in the enclosing function a governance check
produces nothing, and with none it produces exactly the one violation
reported at the check. -/
theorem unlogged_action_coOccurrence :
    ∀ (n : Node) (anc : List Node) (f : Node),
      isGovernanceCheck n = true →
      findEnclosingFunction anc = some f →
      ((∃ c ∈ collectCallExpressions f, isAuditLog c = true) →
        unloggedActionStep (n, anc) = []) ∧
      ((∀ c ∈ collectCallExpressions f, isAuditLog c = false) →
        unloggedActionStep (n, anc) = [mkUnloggedViolation n]) := by
  intro n anc f hg hf
  constructor
  · rintro ⟨c, hc, ha⟩
    have hany : (collectCallExpressions f).any isAuditLog = true :=
      List.any_eq_true.mpr ⟨c, hc, ha⟩
    simp [unloggedActionStep, hg, hf, hany]
  · intro hall
    have hany : (collectCallExpressions f).any isAuditLog = false := by
      rw [Bool.eq_false_iff]
      intro htrue
      rcases List.any_eq_true.mp htrue with ⟨c, hc, ha⟩
      rw [hall c hc] at ha
      cases ha
    simp [unloggedActionStep, hg, hf, hany]

/-- C6 witness: the check in `function a() { engine.check(); audit.log() }`
(log after the check) is not reported; the check in
`function b() { engine.check() }` is reported exactly once. -/
theorem unlogged_action_witness :
    unloggedActionStep (loggedGovCall, [Node.block [loggedFn], loggedFn, loggedBody]) = [] ∧
    unloggedActionStep (unloggedGovCall, [Node.block [unloggedFn], unloggedFn, unloggedBody]) =
      [mkUnloggedViolation unloggedGovCall] :=
  ⟨(unlogged_action_coOccurrence loggedGovCall
      [Node.block [loggedFn], loggedFn, loggedBody] loggedFn rfl rfl).1 (by decide),
   (unlogged_action_coOccurrence unloggedGovCall
      [Node.block [unloggedFn], unloggedFn, unloggedBody] unloggedFn rfl rfl).2 (by decide)⟩

/-- C7.  no-hardcoded-trust-level is symmetric in the operand order: for
any comparison operator, any trust-identifier-like operand and any small
numeric literal, the identifier-left and literal-left forms produce the
same report under every configured bound, and under the default bound that
report is exactly one violation at the literal node carrying the literal's
value. -/
theorem hardcoded_trust_symmetric :
    ∀ (m : JSVal) (op : String) (t : Node) (v : Int) (loc : Option Loc),
      COMPARISON_OPERATORS.contains op = true →
      nodeContainsTrustIdentifier t = true →
      0 ≤ v → v ≤ 5 →
      trustRuleOnNode m (.binary op t (.lit (.num v) loc)) =
        trustRuleOnNode m (.binary op (.lit (.num v) loc) t) ∧
      trustRuleOnNode (JSVal.num 5) (.binary op t (.lit (.num v) loc)) =
        [mkTrustViolation (.lit (.num v) loc) v] := by
  intro m op t v loc hop ht h0 h5
  have hlit : isSmallNumericLiteral (.lit (.num v) loc) = true := by
    simp [isSmallNumericLiteral]
    exact ⟨h0, h5⟩
  have hzero : nodeContainsTrustIdentifier (.lit (.num v) loc) = false := rfl
  have hslt : isSmallNumericLiteral t = false := by
    cases t with
    | ident _ => rfl
    | member _ _ _ => rfl
    | lit _ _ => simp [nodeContainsTrustIdentifier] at ht
    | call _ _ _ => simp [nodeContainsTrustIdentifier] at ht
    | binary _ _ _ => simp [nodeContainsTrustIdentifier] at ht
    | func _ _ => simp [nodeContainsTrustIdentifier] at ht
    | block _ => simp [nodeContainsTrustIdentifier] at ht
  have hop' : op ∈ COMPARISON_OPERATORS := by simpa using hop
  constructor
  · simp [trustRuleOnNode, hop', ht, hlit, hzero, hslt, litNumValue]
  · have hle : jsLeNumVal v (JSVal.num 5) = true := by
      simp [jsLeNumVal]
      exact h5
    simp [trustRuleOnNode, hop', ht, hlit, hle, litNumValue]

/-- C7 witness: `level >= 3` and `3 <= level`-style operand swap at the
default bound. -/
theorem hardcoded_trust_symmetric_witness :
    trustRuleOnNode (JSVal.num 5)
        (.binary ">=" (.ident "level") (.lit (.num 3) (some ⟨1, 9⟩))) =
      trustRuleOnNode (JSVal.num 5)
        (.binary ">=" (.lit (.num 3) (some ⟨1, 9⟩)) (.ident "level")) ∧
    trustRuleOnNode (JSVal.num 5)
        (.binary ">=" (.ident "level") (.lit (.num 3) (some ⟨1, 9⟩))) =
      [mkTrustViolation (.lit (.num 3) (some ⟨1, 9⟩)) 3] :=
  hardcoded_trust_symmetric (JSVal.num 5) ">=" (.ident "level") 3 (some ⟨1, 9⟩)
    rfl (by decide) (by decide) (by decide)

/-- C8 amended.  `options.maxMagicValue ?? 5` falls back to the documented
default exactly for the nullish invalid values (`undefined`, i.e. absent,
and `null`); any other invalid value is used as-is in the comparison, and a
non-numeric string (whose `ToNumber` is `NaN`) silently disables the rule
for the whole run instead of behaving like the default — though still
without failing the run. -/
theorem maxMagicValue_nullish_fallback :
    (∀ root : Node,
        runNoHardcodedTrustLevel JSVal.undef root =
          runNoHardcodedTrustLevel (JSVal.num 5) root ∧
        runNoHardcodedTrustLevel JSVal.nul root =
          runNoHardcodedTrustLevel (JSVal.num 5) root) ∧
    (∀ (root : Node) (s : String),
        jsStringToNumber s = none →
        runNoHardcodedTrustLevel (JSVal.str s) root = []) := by
  constructor
  · intro root
    exact ⟨rfl, rfl⟩
  · intro root s hs
    have hle : ∀ v : Int, jsLeNumVal v (JSVal.str s) = false := by
      intro v
      simp [jsLeNumVal, hs]
    have hnil : ∀ (l : List (Node × List Node)),
        l.flatMap (fun p => trustRuleOnNode (JSVal.str s) p.1) = [] := by
      intro l
      induction l with
      | nil => rfl
      | cons h t ih => simp [trustRuleOnNode_eq_nil _ hle, ih]
    show (nodesWithAncestors [] root).flatMap
        (fun p => trustRuleOnNode (JSVal.str s) p.1) = []
    exact hnil _

/-- C8 amended, witness: the non-numeric bound `"nope"` leaves `level >= 7`
unreported (and reports nothing at all). -/
theorem maxMagicValue_string_witness :
    runNoHardcodedTrustLevel (JSVal.str "nope") levelGe7File = [] :=
  maxMagicValue_nullish_fallback.2 levelGe7File "nope" (by decide)

/-- C9.  The engine is deterministic: the violation sequence of a run is a
function of the configuration and the parsed file alone, so two runs over
the same unmodified file agree. -/
theorem engine_run_deterministic :
    ∀ (cfg : LintConfig) (root : Node) (v₁ v₂ : List Violation),
      v₁ = runAllRules cfg root → v₂ = runAllRules cfg root → v₁ = v₂ := by
  intro cfg root v₁ v₂ h1 h2
  rw [h1, h2]

/-- C9 witness: two runs over `lateConsentFile` with the default
configuration coincide. -/
theorem engine_run_deterministic_witness :
    runAllRules ⟨JSVal.undef, defaultToolCallOptions⟩ lateConsentFile =
      runAllRules ⟨JSVal.undef, defaultToolCallOptions⟩ lateConsentFile :=
  engine_run_deterministic ⟨JSVal.undef, defaultToolCallOptions⟩
    lateConsentFile _ _ rfl rfl

/-- C10.  `collectCallExpressions` descends into nested function bodies:
a prerequisite call sitting inside a closure nested anywhere in the
enclosing function satisfies each rule's requirement (subject to the
source-order condition for the three precedence rules, and orderlessly for
no-unlogged-action), so the trigger is not reported. -/
theorem nested_function_calls_counted :
    (∀ (opts : ToolCallOptions) (n : Node) (anc : List Node) (f : Node)
        (k : FuncKind) (body c : Node),
        isToolCall n = true →
        findEnclosingFunction anc = some f →
        InTree (.func k body) f →
        c ∈ collectCallExpressions body →
        isGovernanceCheck c = true →
        posStrictlyBefore (nodeLoc c) (nodeLoc n) →
        toolCallStep opts (n, anc) = []) ∧
    (∀ (n : Node) (anc : List Node) (f : Node) (k : FuncKind) (body c : Node),
        isGovernanceCheck n = true →
        findEnclosingFunction anc = some f →
        InTree (.func k body) f →
        c ∈ collectCallExpressions body →
        isAuditLog c = true →
        unloggedActionStep (n, anc) = []) ∧
    (∀ (n : Node) (anc : List Node) (f : Node) (k : FuncKind) (body c : Node),
        isDataAccessCall n = true →
        findEnclosingFunction anc = some f →
        InTree (.func k body) f →
        c ∈ collectCallExpressions body →
        isConsentCheck c = true →
        posStrictlyBefore (nodeLoc c) (nodeLoc n) →
        consentCheckStep (n, anc) = []) ∧
    (∀ (n : Node) (anc : List Node) (f : Node) (k : FuncKind) (body c : Node),
        isSpendCall n = true →
        findEnclosingFunction anc = some f →
        InTree (.func k body) f →
        c ∈ collectCallExpressions body →
        isBudgetCheck c = true →
        posStrictlyBefore (nodeLoc c) (nodeLoc n) →
        budgetCheckStep (n, anc) = []) := by
  refine ⟨?_, ?_, ?_, ?_⟩
  · intro opts n anc f k body c ht hf htree hc hg hpos
    have hcf : c ∈ collectCallExpressions f :=
      mem_collect_of_inTree htree
        (show c ∈ collectCallExpressions (.func k body) from hc)
    have hany : anyCallPrecedesNode (collectCallExpressions f) n isGovernanceCheck = true :=
      (anyCallPrecedesNode_iff _ _ _).2 ⟨c, hcf, hg, hpos⟩
    simp [toolCallStep, ht, hf, hany]
  · intro n anc f k body c hg hf htree hc ha
    have hcf : c ∈ collectCallExpressions f :=
      mem_collect_of_inTree htree
        (show c ∈ collectCallExpressions (.func k body) from hc)
    have hany : (collectCallExpressions f).any isAuditLog = true :=
      List.any_eq_true.mpr ⟨c, hcf, ha⟩
    simp [unloggedActionStep, hg, hf, hany]
  · intro n anc f k body c hd hf htree hc hcon hpos
    have hcf : c ∈ collectCallExpressions f :=
      mem_collect_of_inTree htree
        (show c ∈ collectCallExpressions (.func k body) from hc)
    have hany : anyCallPrecedesNode (collectCallExpressions f) n isConsentCheck = true :=
      (anyCallPrecedesNode_iff _ _ _).2 ⟨c, hcf, hcon, hpos⟩
    simp [consentCheckStep, hd, hf, hany]
  · intro n anc f k body c hs hf htree hc hb hpos
    have hcf : c ∈ collectCallExpressions f :=
      mem_collect_of_inTree htree
        (show c ∈ collectCallExpressions (.func k body) from hc)
    have hany : anyCallPrecedesNode (collectCallExpressions f) n isBudgetCheck = true :=
      (anyCallPrecedesNode_iff _ _ _).2 ⟨c, hcf, hb, hpos⟩
    simp [budgetCheckStep, hs, hf, hany]

/-- C10 witness: in
`function outer() { () => { engine.check() }; tool.run() }` the governance
check lives inside the nested arrow yet suppresses the tool-call
violation. -/
theorem nested_function_calls_witness :
    toolCallStep defaultToolCallOptions
      (nestedToolCall, [nestedFile, nestedOuterFn, nestedOuterBody]) = [] :=
  nested_function_calls_counted.1 defaultToolCallOptions nestedToolCall
    [nestedFile, nestedOuterFn, nestedOuterBody] nestedOuterFn
    .arrowFunctionExpression nestedArrowBody nestedGovCall
    rfl rfl
    (InTree.step (List.Mem.head _)
      (InTree.step (List.Mem.head _) (InTree.refl _)))
    (List.Mem.head _) rfl (by decide)
